import Mathlib

/-
Verification of the Material Description Matching Engine (src/app.py).

The Python text-processing helpers and the matcher are embedded shallowly over
lists of characters.  Python strings are modelled as List Char; ASCII-range
behaviour of str.lower, \d, \w and \s is modelled exactly (the inputs the
engine handles are ASCII apart from the curly punctuation that
normalize_material_text itself folds away).  Python floats are modelled as
rationals.  The two rapidfuzz similarity ratios are external library calls,
not code of this repository; the scorer is therefore parametrised over the
two ratio functions, and concrete instantiations are used where a concrete
run is evaluated.
-/

namespace STApp

abbrev Str := List Char

/-- Python str.lower restricted to ASCII (Char.toLower lowers exactly A-Z). -/
def pyLower (s : Str) : Str := s.map Char.toLower

/-- Python \s and str.split()/str.strip() whitespace, ASCII range. -/
def pyIsSpace (c : Char) : Bool :=
  c = ' ' || c = '\t' || c = '\n' || c = '\x0b' || c = '\x0c' || c = '\r'

/-- Python \w word character, ASCII range. -/
def isWordChar (c : Char) : Bool := c.isAlphanum || c = '_'

/-- One pass of Python str.replace(old, new): every non-overlapping occurrence
of old is replaced, scanning left to right and resuming after the replaced
slice.  fuel bounds the recursion; each step consumes at least one input
character, so fuel = length of the input (supplied by pyReplace) is enough.
No call site uses an empty pattern. -/
def replaceFuel (old new : Str) : Nat → Str → Str
  | 0, s => s
  | _ + 1, [] => []
  | fuel + 1, c :: rest =>
    if old.isPrefixOf (c :: rest) && !old.isEmpty then
      new ++ replaceFuel old new fuel (List.drop (old.length - 1) rest)
    else
      c :: replaceFuel old new fuel rest

def pyReplace (s old new : Str) : Str := replaceFuel old new s.length s

/-- re.sub of one whitespace run to a single space: the inRun flag records
whether the previous character was whitespace. -/
def collapseGo (inRun : Bool) : Str → Str
  | [] => []
  | c :: rest =>
    if pyIsSpace c then
      if inRun then collapseGo true rest else ' ' :: collapseGo true rest
    else
      c :: collapseGo false rest

/-- re.sub of every maximal whitespace run to a single space. -/
def collapseWS (s : Str) : Str := collapseGo false s

/-- Python str.strip(). -/
def pyStrip (s : Str) : Str :=
  ((s.dropWhile pyIsSpace).reverse.dropWhile pyIsSpace).reverse

def fillerWords : List Str :=
  (["roll", "bag", "pcs", "pc", "each", "ea", "unit", "piece", "per"].map String.data)

/-- The body of the noise-word re.sub in normalize_material_text.  Both word
boundaries force a match of the alternation to start and end exactly at the
boundaries of a maximal word-character run, so the regex matches precisely
the maximal word-character runs equal to one of the listed words and the
substitution deletes exactly those runs.  cur holds the current run reversed. -/
def remFillGo (cur : Str) : Str → Str
  | [] => if fillerWords.contains cur.reverse then [] else cur.reverse
  | c :: rest =>
    if isWordChar c then remFillGo (c :: cur) rest
    else
      (if fillerWords.contains cur.reverse then [] else cur.reverse)
        ++ c :: remFillGo [] rest

/-- The noise-word removal pass of normalize_material_text. -/
def removeFillers (s : Str) : Str := remFillGo [] s

/-- normalize_material_text from src/app.py: lower-case, fold curly quotes
and dashes to ASCII, unify unit spellings, delete whole-token noise words,
collapse whitespace, trim.  The replace calls happen in source order. -/
def normalize_material_text (s : Str) : Str :=
  let t0 := pyLower s
  let t1 := pyReplace t0 "”".data "\"".data
  let t2 := pyReplace t1 "“".data "\"".data
  let t3 := pyReplace t2 "–".data "-".data
  let t4 := pyReplace t3 "—".data "-".data
  let t5 := pyReplace t4 "inch".data "in".data
  let t6 := pyReplace t5 "in.".data "in".data
  let t7 := pyReplace t6 "\"".data "in".data
  let t8 := pyReplace t7 "feet".data "ft".data
  let t9 := pyReplace t8 "ft.".data "ft".data
  pyStrip (collapseWS (removeFillers t9))

/-- Case-insensitive literal prefix test: re.IGNORECASE matching of an
escaped (hence literal) all-lowercase pattern against the text. -/
def ciPrefix : Str → Str → Bool
  | [], _ => true
  | _ :: _, [] => false
  | p :: ps, c :: cs => p = Char.toLower c && ciPrefix ps cs

/-- One pass of re.sub(re.escape(pat), rep, s, flags=re.IGNORECASE) for a
literal pattern: leftmost non-overlapping occurrences, matched without case,
replaced by rep as written.  Same fuel discipline as replaceFuel. -/
def replaceCIFuel (pat rep : Str) : Nat → Str → Str
  | 0, s => s
  | _ + 1, [] => []
  | fuel + 1, c :: rest =>
    if ciPrefix pat (c :: rest) && !pat.isEmpty then
      rep ++ replaceCIFuel pat rep fuel (List.drop (pat.length - 1) rest)
    else
      c :: replaceCIFuel pat rep fuel rest

def pyReplaceCI (s pat rep : Str) : Str := replaceCIFuel pat rep s.length s

/-- The SYNONYMS table of src/app.py, in dict insertion order. -/
def SYNONYMS : List (Str × List Str) :=
  [("flex".data, ["flex duct".data, "flexible duct".data]),
   ("silvertape".data, ["foil tape".data, "silver tape".data]),
   ("insulation wrap".data, ["duct wrap".data, "duct insulation".data]),
   ("wrap".data, ["duct wrap".data]),
   ("90".data, ["elbow".data, "90 degree".data, "90°".data]),
   ("elbow".data, ["90".data, "elbow fitting".data])]

/-- expand_synonyms from src/app.py: for each table entry in order, a global
case-insensitive replacement of the escaped key by the first listed phrase.
The escaped pattern carries no word-boundary anchors. -/
def expand_synonyms (s : Str) : Str :=
  SYNONYMS.foldl (fun out pv => pyReplaceCI out pv.1 (pv.2.headD [])) s

/-- The unit alternation of the extractor regex, in alternation order, paired
with the normalized spelling produced by line 191 of src/app.py.  Nothing
follows the alternation in the pattern, so the first alternative that is a
prefix of the remaining text wins ("in" therefore shadows "inch"/"inches"). -/
def unitAlternatives : List (Str × Str) :=
  [("in".data, "in".data), ("ft".data, "ft".data), ("inch".data, "in".data),
   ("inches".data, "in".data), ("feet".data, "ft".data)]

def findUnit (s : Str) : Option (Str × Str) :=
  unitAlternatives.foldl (fun acc uv =>
    match acc with
    | some r => some r
    | none =>
      if uv.1.isPrefixOf s then some (uv.2, s.drop uv.1.length) else none) none

/-- The scan of re.findall for the extractor pattern: a match starts at a
digit; the number part takes the maximal digit run plus an optional
'.'-and-digits fraction; the optional unit group takes whitespace and then
the first matching alternative (the group matches empty, consuming nothing,
when no unit follows); scanning resumes after the match.  fuel bounds the
scan; each step consumes at least one character. -/
def extractGo : Nat → Str → List Str
  | 0, _ => []
  | _ + 1, [] => []
  | fuel + 1, c :: rest =>
    if c.isDigit then
      let intDs := c :: rest.takeWhile Char.isDigit
      let r1 := rest.dropWhile Char.isDigit
      let hasFrac : Bool :=
        match r1 with
        | '.' :: d :: _ => d.isDigit
        | _ => false
      let numStr :=
        if hasFrac then intDs ++ '.' :: (r1.drop 1).takeWhile Char.isDigit else intDs
      let r2 := if hasFrac then (r1.drop 1).dropWhile Char.isDigit else r1
      let r3 := r2.dropWhile pyIsSpace
      match findUnit r3 with
      | some ur => (numStr ++ ur.1) :: extractGo fuel ur.2
      | none => numStr :: extractGo fuel r2
    else extractGo fuel rest

/-- extract_numbers_with_units from src/app.py: lower-case, fold a double
quote to "in", then scan for number-plus-optional-unit tokens. -/
def extract_numbers_with_units (s : Str) : List Str :=
  let t := pyReplace (pyLower s) "\"".data "in".data
  extractGo t.length t

def lineTerminators : List Char :=
  ['\n', '\r', '\x0b', '\x0c', '\x1c', '\x1d', '\x1e', '\x85', ' ', ' ']

/-- Python str.splitlines: breaks at any line terminator, with a CR-LF pair
counting as one break, and no trailing empty line after a terminal break.
cur holds the current line reversed. -/
def splitlinesGo (cur : Str) : Str → List Str
  | [] => if cur.isEmpty then [] else [cur.reverse]
  | '\r' :: '\n' :: rest => cur.reverse :: splitlinesGo [] rest
  | c :: rest =>
    if lineTerminators.contains c then cur.reverse :: splitlinesGo [] rest
    else splitlinesGo (c :: cur) rest

def pySplitlines (s : Str) : List Str := splitlinesGo [] s

structure ParsedEntry where
  quantity : Nat
  description : Str
  deriving DecidableEq

/-- int over a string of ASCII digits (int(m.group(1)) on a \d+ capture). -/
def natOfDigits (ds : Str) : Nat := ds.foldl (fun n c => 10 * n + (c.toNat - 48)) 0

/-- re.match of an explicit-count line against r of shape (digits)(spaces)
(one of - x X)(spaces)(nonempty remainder): the digit and whitespace runs are
maximal, because no later element of the pattern can consume a digit or a
space, and the trailing required remainder makes the match fail when nothing
follows the separator.  group(2).strip() equals the remainder stripped.  The
function is only applied to lines free of line terminators, so the dot-based
remainder matches everything. -/
def shape1 (line : Str) : Option (Nat × Str) :=
  let ds := line.takeWhile Char.isDigit
  let r1 := line.dropWhile Char.isDigit
  let r2 := r1.dropWhile pyIsSpace
  if ds = [] then none
  else
    match r2 with
    | [] => none
    | sep :: r3 =>
      if (sep = '-' ∨ sep = 'x' ∨ sep = 'X') ∧ r3 ≠ [] then
        some (natOfDigits ds, pyStrip r3)
      else none

/-- The unit alternation of the leading-measurement pattern, in order. -/
def unitAlts2 : List Str :=
  ["in".data, "ft".data, "\"".data, "inch".data, "inches".data, "feet".data]

/-- Word boundary between a matched unit's last character and what follows:
a boundary holds when exactly one side is a word character, the right side
counting as a non-word character at the end of the line. -/
def boundaryAfter (lastC : Char) (rest : Str) : Bool :=
  match rest with
  | [] => isWordChar lastC
  | c :: _ => isWordChar lastC != isWordChar c

/-- The first alternative that is a case-insensitive prefix of s and is
followed by a word boundary wins; a failed boundary makes the engine try the
next alternative.  Returns the matched slice of the original text together
with the rest. -/
def findUnit2 (s : Str) : Option (Str × Str) :=
  unitAlts2.foldl (fun acc u =>
    match acc with
    | some r => some r
    | none =>
      if ciPrefix u s then
        let matched := s.take u.length
        if boundaryAfter (matched.getLastD ' ') (s.drop u.length) then
          some (matched, s.drop u.length)
        else none
      else none) none

/-- re.match of a leading-measurement line, case-insensitive: a decimal
number (maximal digits, optional dot-and-digits fraction), then whitespace
and a unit token ending at a word boundary, then the remainder.  Dropping a
present fraction can never rescue a failed unit match (the text would then
resume at the dot, which no later pattern element accepts), so the greedy
reading is exact.  Groups 1 and 2 are re-assembled and stripped as in the
source; the remainder keeps its original case. -/
def shape2 (line : Str) : Option (Nat × Str) :=
  let ds := line.takeWhile Char.isDigit
  let r1 := line.dropWhile Char.isDigit
  if ds = [] then none
  else
    let hasFrac : Bool :=
      match r1 with
      | '.' :: d :: _ => d.isDigit
      | _ => false
    let numStr := if hasFrac then ds ++ '.' :: (r1.drop 1).takeWhile Char.isDigit else ds
    let r2 := if hasFrac then (r1.drop 1).dropWhile Char.isDigit else r1
    let sp := r2.takeWhile pyIsSpace
    let r3 := r2.dropWhile pyIsSpace
    match findUnit2 r3 with
    | none => none
    | some ur =>
      let sizeToken := pyStrip (numStr ++ sp ++ ur.1)
      let remainder := pyStrip ur.2
      some (1, if remainder ≠ [] then sizeToken ++ ' ' :: remainder else sizeToken)

/-- One stripped, nonempty line: the three shapes tried in order. -/
def parseLine (line : Str) : ParsedEntry :=
  match shape1 line with
  | some qd => ⟨qd.1, qd.2⟩
  | none =>
    match shape2 line with
    | some qd => ⟨qd.1, qd.2⟩
    | none => ⟨1, line⟩

/-- parse_materials_text from src/app.py: empty input gives no entries;
otherwise the stripped text is split into lines, blank lines are dropped and
every other line is parsed by the three shapes. -/
def parse_materials_text (text : Str) : List ParsedEntry :=
  if text = [] then []
  else
    (pySplitlines (pyStrip text)).filterMap (fun raw =>
      let line := pyStrip raw
      if line = [] then none else some (parseLine line))

/-- Python str.split() with no argument: split on whitespace runs, dropping
empty pieces.  cur holds the current piece reversed. -/
def splitGo (cur : Str) : Str → List Str
  | [] => if cur.isEmpty then [] else [cur.reverse]
  | c :: rest =>
    if pyIsSpace c then
      (if cur.isEmpty then [] else [cur.reverse]) ++ splitGo [] rest
    else splitGo (c :: cur) rest

def pySplitWS (s : Str) : List Str := splitGo [] s

/-- A catalog material as the matcher reads it: m.get fields defaulting to
the empty string are the three string fields, and the mandatory m.id key is
an identifier (an opaque non-null key in the pricebook data). -/
structure Material where
  id : Nat
  displayName : Str
  code : Str
  description : Str
  deriving DecidableEq

/-- The category keyword taxonomy local to match_material. -/
def categories : List (Str × List Str) :=
  [("flex".data, ["flex".data, "flexible".data, "duct".data]),
   ("elbow".data, ["elbow".data, "90".data]),
   ("wrap".data, ["wrap".data, "insulation".data]),
   ("tape".data, ["tape".data, "foil".data])]

def badWords : List Str :=
  ["wire".data, "breaker".data, "motor".data, "circuit".data]

/-- The categories whose keyword set meets the token set of the description. -/
def descCategories (dtoks : List Str) : List Str :=
  (categories.filter (fun ck => ck.2.any (fun k => dtoks.contains k))).map
    (fun ck => ck.1)

/-- float of the digits-and-dots characters kept from a token.  Python float
raises ValueError on an empty string, a lone dot, or more than one dot;
otherwise the string denotes a plain decimal. -/
def floatOfDigitsDots (tok : Str) : Option ℚ :=
  let t := tok.filter (fun c => c.isDigit || c = '.')
  if t = [] then none
  else if 1 < t.count '.' then none
  else if t = ['.'] then none
  else
    let ip := t.takeWhile (fun c => c ≠ '.')
    let fp := (t.dropWhile (fun c => c ≠ '.')).drop 1
    some ((natOfDigits ip : ℚ) + (natOfDigits fp : ℚ) / (10 : ℚ) ^ fp.length)

/-- The body of the inner loop of numeric_proximity_score, with its two
potentially-raising operations surfaced in Except: the float parse of the
field token (ValueError) and the ratio whose denominator max(a, b) can be
zero (ZeroDivisionError).  On success the updated running maximum. -/
def proxInner (dv s2 : ℚ) (fn : Str) : Except Unit ℚ :=
  match floatOfDigitsDots fn with
  | none => Except.error ()
  | some fv =>
    if max dv fv = 0 then Except.error ()
    else Except.ok (max s2 (min dv fv / max dv fv))

/-- The except-continue handler wrapped around the inner loop body in the
source: an error leaves the running score unchanged. -/
def proxInnerCaught (dv s2 : ℚ) (fn : Str) : ℚ :=
  match proxInner dv s2 fn with
  | Except.ok v => v
  | Except.error _ => s2

/-- numeric_proximity_score from src/app.py: for every description token that
parses, the running maximum of min/max ratios against every parsing field
token, exceptions skipping the token, all scaled by the 0.2 weight. -/
def numeric_proximity_score (dns fns : List Str) : ℚ :=
  (dns.foldl (fun s dn =>
    match floatOfDigitsDots dn with
    | none => s
    | some dv => fns.foldl (fun s2 fn => proxInnerCaught dv s2 fn) s) 0) * 0.2

/-- sum(p dn fn for dn in dns for fn in fns) over booleans. -/
def countPairs (p : Str → Str → Bool) (dns fns : List Str) : Nat :=
  (dns.map (fun dn => (fns.filter (p dn)).length)).sum

/-- Python substring containment a in b. -/
def isSubstr (a b : Str) : Bool := decide (a <:+: b)

/-- dn in fn or fn in dn, Python substring containment. -/
def isSubEither (dn fn : Str) : Bool := isSubstr dn fn || isSubstr fn dn

/-- numeric_score of match_material: exact token matches, partial substring
matches and the proximity score, with the source weights. -/
def numericScore (dns fns : List Str) : ℚ :=
  0.10 * (countPairs (fun dn fn => fn = dn) dns fns : ℚ)
    + 0.05 * (countPairs isSubEither dns fns : ℚ)
    + numeric_proximity_score dns fns

/-- semantic_score of match_material: per category, +0.6 when the description
has the category and the field shares one of its keywords, otherwise -0.3
when the description has the category and the field contains an
electrical-domain word. -/
def semanticScore (dcats : List Str) (ftoks : List Str) : ℚ :=
  categories.foldl (fun acc ck =>
    if ck.1 ∈ dcats ∧ ck.2.any (fun k => ftoks.contains k) then acc + 0.6
    else if ck.1 ∈ dcats ∧ badWords.any (fun b => ftoks.contains b) then acc - 0.3
    else acc) 0

/-- The normalized field text: synonyms expanded, then normalized. -/
def fieldNorm (field : Str) : Str := normalize_material_text (expand_synonyms field)

/-- The per-field total score of match_material for one nonempty field.  The
two rapidfuzz ratios fzP (fuzz.partial_ratio) and fzT (fuzz.token_sort_ratio)
are external library calls and enter as parameters on the 0-100 scale.  Only
an upper clamp min(total, 1.0) is applied. -/
def fieldScore (fzP fzT : Str → Str → ℚ) (descNorm : Str) (descNums : List Str)
    (dcats : List Str) (field : Str) : ℚ :=
  let fn := fieldNorm field
  let fuzzy := max (fzP descNorm fn) (fzT descNorm fn) / 100
  min (0.50 * fuzzy + 0.25 * semanticScore dcats (pySplitWS fn)
        + 0.20 * numericScore descNums (extract_numbers_with_units fn)) 1

/-- The loop over the item's three fields: empty fields are skipped and the
best per-field score, starting from 0, is kept. -/
def bestFieldScore (fzP fzT : Str → Str → ℚ) (descNorm : Str)
    (descNums : List Str) (dcats : List Str) (m : Material) : ℚ :=
  [m.displayName, m.code, m.description].foldl (fun best f =>
    if f = [] then best
    else max best (fieldScore fzP fzT descNorm descNums dcats f)) 0

structure ScoredMatch where
  id : Nat
  name : Str
  score : ℚ
  deriving DecidableEq

/-- Stable descending insertion by score: a later element goes after every
earlier element of equal score, matching Python list.sort(key=score,
reverse=True). -/
def insertDesc (x : ScoredMatch) : List ScoredMatch → List ScoredMatch
  | [] => [x]
  | y :: ys => if y.score < x.score then x :: y :: ys else y :: insertDesc x ys

def sortDesc (l : List ScoredMatch) : List ScoredMatch :=
  l.foldl (fun acc x => insertDesc x acc) []

/-- The normalized description and its derived data, shared by every field
comparison of one match_material call. -/
def descNormOf (description : Str) : Str :=
  normalize_material_text (expand_synonyms description)

def descCatsOf (description : Str) : List Str :=
  descCategories (pySplitWS (descNormOf description))

/-- The scored_matches list of match_material: every material scored by its
best field, kept in catalog order when the score is strictly positive. -/
def scoredOf (fzP fzT : Str → Str → ℚ) (description : Str)
    (materials : List Material) : List ScoredMatch :=
  materials.filterMap (fun m =>
    let b := bestFieldScore fzP fzT (descNormOf description)
      (extract_numbers_with_units (descNormOf description))
      (descCatsOf description) m
    if 0 < b then some (⟨m.id, m.displayName, b⟩ : ScoredMatch) else none)

/-- match_material from src/app.py, parametrised by the two rapidfuzz
ratios: score every material by its best field, keep the strictly positive
scores in catalog order, sort stably by descending score, and accept the top
candidate only at or above the 0.55 threshold; otherwise the no-match triple.
The triple is (itemId, itemName, score) with None modelled as none. -/
def match_material (fzP fzT : Str → Str → ℚ) (description : Str)
    (materials : List Material) : Option Nat × Option Str × ℚ :=
  match (sortDesc (scoredOf fzP fzT description materials)).head? with
  | some best =>
    if 0.55 ≤ best.score then (some best.id, some best.name, best.score)
    else (none, none, 0)
  | none => (none, none, 0)

/-- The top-ranked score for a description over a catalog: the maximum best
per-field score across the catalog, 0 over the empty catalog. -/
def topScore (fzP fzT : Str → Str → ℚ) (description : Str)
    (materials : List Material) : ℚ :=
  materials.foldl (fun a m =>
    max a (bestFieldScore fzP fzT (descNormOf description)
      (extract_numbers_with_units (descNormOf description))
      (descCatsOf description) m)) 0

/-- Claim C9: the line parser satisfies the worked examples: "3 x wye
fitting" yields exactly the one entry with quantity 3 and description "wye
fitting", and "flex duct 25ft", having no leading quantity marker, yields
exactly the one entry with quantity 1 and the full trimmed line as its
description. -/
theorem claim_C9 :
    parse_materials_text "3 x wye fitting".data = [⟨3, "wye fitting".data⟩]
      ∧ parse_materials_text "flex duct 25ft".data
          = [⟨1, "flex duct 25ft".data⟩] := by
  decide

/-- Claim C7, counterexample: the filler regex of normalize_material_text
has no alternative for "of", so "of" standing alone is not dropped, against
the claimed removal set. -/
theorem claim_C7_counterexample :
    normalize_material_text "of".data = "of".data
      ∧ normalize_material_text "of".data ≠ [] := by
  decide

/-- Claim C7 as amended: the removed filler set is roll, bag, pcs, pc, each,
ea, unit, piece, per — without "of" — removed as whole tokens only: each
listed word standing alone normalizes away, words merely containing one are
untouched, and "of" survives in context. -/
theorem claim_C7_amended :
    normalize_material_text "roll".data = []
      ∧ normalize_material_text "bag".data = []
      ∧ normalize_material_text "pcs".data = []
      ∧ normalize_material_text "pc".data = []
      ∧ normalize_material_text "each".data = []
      ∧ normalize_material_text "ea".data = []
      ∧ normalize_material_text "unit".data = []
      ∧ normalize_material_text "piece".data = []
      ∧ normalize_material_text "per".data = []
      ∧ normalize_material_text "peach units".data = "peach units".data
      ∧ normalize_material_text "rollers".data = "rollers".data
      ∧ normalize_material_text "per roll of tape".data = "of tape".data := by
  decide

/-- Claim C4, counterexample: the extractor emits the digit groups of a
fraction separately instead of one token with its decimal value: "3/4"
produces the two tokens "3" and "4", not a single token. -/
theorem claim_C4_counterexample :
    extract_numbers_with_units "3/4".data = ["3".data, "4".data]
      ∧ (extract_numbers_with_units "3/4".data).length ≠ 1 := by
  decide

/-- Claim C4 as amended: the extractor performs no fraction conversion —
"/" and "-" are not part of the number pattern, so each digit group of a
mixed fraction is emitted as its own token; decimal numbers with a dot are
the only non-integer values recognized. -/
theorem claim_C4_amended :
    extract_numbers_with_units "1-1/2".data
        = ["1".data, "1".data, "2".data]
      ∧ extract_numbers_with_units "6.5ft".data = ["6.5ft".data] := by
  decide

/-- Claim C5, counterexample: the expander's pattern is the escaped key with
no word-boundary anchors, so the key "flex" strictly inside the longer word
"flexible" is replaced, against the claimed boundary matching. -/
theorem claim_C5_counterexample :
    expand_synonyms "flexible".data = "flex ductible".data
      ∧ expand_synonyms "flexible".data ≠ "flexible".data := by
  decide

/-- Claim C5 as amended: the expander replaces every occurrence of each
table key with the table's first listed phrase, case-insensitively and in
table order, with no word-boundary check, so occurrences inside longer
words are rewritten as well. -/
theorem claim_C5_amended :
    expand_synonyms "reflexive".data = "reflex ductive".data
      ∧ expand_synonyms "FLEX".data = "flex duct".data
      ∧ expand_synonyms "wrap".data = "duct wrap".data := by
  decide

/-- Claim C3, counterexample: normalize is not idempotent: the quote
character of the two-character input quote-dot becomes "in", recreating the
rewritable substring "in.", which a second normalization rewrites again. -/
theorem claim_C3_counterexample :
    normalize_material_text (normalize_material_text "\".".data)
        ≠ normalize_material_text "\".".data
      ∧ normalize_material_text "\".".data = "in.".data
      ∧ normalize_material_text "in.".data = "in".data := by
  decide

/-- Claim C6, counterexample: an explicit zero count is taken as written,
so the parsed quantity can be 0, against the claimed invariant that it is
never zero. -/
theorem claim_C6_counterexample :
    parse_materials_text "0 x widget".data = [⟨0, "widget".data⟩] := by
  decide

theorem natOfDigits_go_pos {l : Str} {n : Nat} (hn : 1 ≤ n) :
    1 ≤ l.foldl (fun n c => 10 * n + (c.toNat - 48)) n := by
  induction l generalizing n with
  | nil => exact hn
  | cons c cs ih =>
    rw [List.foldl_cons]
    exact ih (by omega)

theorem natOfDigits_pos {ds : Str} (hne : ds ≠ [])
    (hdig : ∀ c ∈ ds, c.isDigit = true) (h0 : ∀ c ∈ ds, c ≠ '0') :
    1 ≤ natOfDigits ds := by
  match ds, hne with
  | c :: cs, _ =>
    have hd : c.isDigit = true := hdig c (by simp)
    have h0c : c ≠ '0' := h0 c (by simp)
    have hb : 48 ≤ c.toNat ∧ c.toNat ≤ 57 := by
      simp [Char.isDigit] at hd
      exact ⟨hd.1, hd.2⟩
    have hne48 : c.toNat ≠ 48 := by
      intro hh
      exact h0c (Char.ext (UInt32.ext hh))
    unfold natOfDigits
    rw [List.foldl_cons]
    exact natOfDigits_go_pos (by omega)

theorem shape1_cases {line : Str} {q : Nat} {d : Str}
    (h : shape1 line = some (q, d)) :
    q = natOfDigits (line.takeWhile Char.isDigit)
      ∧ line.takeWhile Char.isDigit ≠ [] := by
  simp only [shape1] at h
  split at h
  · simp at h
  · rename_i hne
    split at h
    · simp at h
    · split at h
      · simp only [Option.some.injEq, Prod.mk.injEq] at h
        exact ⟨h.1.symm, hne⟩
      · simp at h

theorem shape2_qty {line : Str} {q : Nat} {d : Str}
    (h : shape2 line = some (q, d)) : q = 1 := by
  simp only [shape2] at h
  split at h
  · simp at h
  · split at h
    · simp at h
    · simp only [Option.some.injEq, Prod.mk.injEq] at h
      exact h.1.symm

theorem parseLine_qty_pos {line : Str} (h0 : '0' ∉ line) :
    1 ≤ (parseLine line).quantity := by
  unfold parseLine
  cases hs1 : shape1 line with
  | some qd =>
    obtain ⟨hq, hne⟩ :=
      shape1_cases (show shape1 line = some (qd.1, qd.2) by rw [hs1])
    simp only [hq]
    refine natOfDigits_pos hne (fun c hc => List.mem_takeWhile_imp hc) ?_
    intro c hc hceq
    subst hceq
    exact h0 ((List.takeWhile_sublist Char.isDigit).subset hc)
  | none =>
    cases hs2 : shape2 line with
    | some qd =>
      have h1 := shape2_qty (show shape2 line = some (qd.1, qd.2) by rw [hs2])
      simp only [h1]
      omega
    | none => simp

theorem mem_pyStrip {c : Char} {s : Str} (h : c ∈ pyStrip s) : c ∈ s := by
  unfold pyStrip at h
  rw [List.mem_reverse] at h
  have h2 := (List.dropWhile_sublist pyIsSpace).subset h
  rw [List.mem_reverse] at h2
  exact (List.dropWhile_sublist pyIsSpace).subset h2

theorem splitlinesGo_cons_nonCRLF {cur : Str} {c2 : Char} {rest : Str}
    (hne : ∀ (rest1 : List Char), c2 = '\r' → rest = '\n' :: rest1 → False) :
    splitlinesGo cur (c2 :: rest)
      = if lineTerminators.contains c2 then cur.reverse :: splitlinesGo [] rest
        else splitlinesGo (c2 :: cur) rest := by
  rw [splitlinesGo.eq_def]
  split
  · simp_all
  · rename_i h1 h2
    injection h2 with hc hr
    subst hc
    exact (hne _ rfl hr).elim
  · rename_i h1 h2
    injection h2 with hc hr
    subst hc hr
    rfl

theorem splitlinesGo_chars {cur s l : Str} (hl : l ∈ splitlinesGo cur s)
    {c : Char} (hc : c ∈ l) : c ∈ cur ∨ c ∈ s := by
  induction cur, s using splitlinesGo.induct with
  | case1 cur hemp =>
    simp only [splitlinesGo, hemp, if_true] at hl
    simp at hl
  | case2 cur hemp =>
    simp only [splitlinesGo, if_neg hemp] at hl
    simp only [List.mem_singleton] at hl
    subst hl
    exact Or.inl (List.mem_reverse.mp hc)
  | case3 cur rest ih =>
    simp only [splitlinesGo] at hl
    rcases List.mem_cons.mp hl with h | h
    · subst h; exact Or.inl (List.mem_reverse.mp hc)
    · rcases ih h with h2 | h2
      · simp at h2
      · right; simp [h2]
  | case4 cur c2 rest hne hterm ih =>
    rw [splitlinesGo_cons_nonCRLF hne, if_pos hterm] at hl
    rcases List.mem_cons.mp hl with h | h
    · subst h; exact Or.inl (List.mem_reverse.mp hc)
    · rcases ih h with h2 | h2
      · simp at h2
      · right; simp [h2]
  | case5 cur c2 rest hne hterm ih =>
    rw [splitlinesGo_cons_nonCRLF hne, if_neg hterm] at hl
    rcases ih hl with h2 | h2
    · rcases List.mem_cons.mp h2 with h3 | h3
      · subst h3; right; simp
      · exact Or.inl h3
    · right; simp [h2]

/-- Claim C6 as amended: a parsed quantity defaults to 1 and is taken
verbatim from an explicit leading count, so it is at least 1 for every input
that does not spell a zero count; in particular every entry parsed from a
text containing no digit 0 has quantity at least 1. -/
theorem claim_C6_amended (text : Str) (h0 : '0' ∉ text) :
    ∀ e ∈ parse_materials_text text, 1 ≤ e.quantity := by
  intro e he
  unfold parse_materials_text at he
  split at he
  · simp at he
  · rw [List.mem_filterMap] at he
    obtain ⟨raw, hraw, heq⟩ := he
    by_cases hb : pyStrip raw = []
    · simp only [hb, if_pos rfl] at heq
      simp at heq
    · simp only [if_neg hb] at heq
      have he2 : e = parseLine (pyStrip raw) := by
        simpa using heq.symm
      subst he2
      refine parseLine_qty_pos ?_
      intro hmem
      have h1 : '0' ∈ raw := mem_pyStrip hmem
      have h2 := splitlinesGo_chars hraw h1
      rcases h2 with h3 | h3
      · simp at h3
      · exact h0 (mem_pyStrip h3)

theorem claim_C6_amended_witness :
    1 ≤ ((parse_materials_text "3 x wye fitting".data).headD ⟨0, []⟩).quantity :=
  claim_C6_amended "3 x wye fitting".data (by decide) _ (by decide)


theorem floatOfDigitsDots_nonneg {tok : Str} {v : ℚ}
    (h : floatOfDigitsDots tok = some v) : 0 ≤ v := by
  simp only [floatOfDigitsDots] at h
  split at h
  · simp at h
  · split at h
    · simp at h
    · split at h
      · simp at h
      · simp only [Option.some.injEq] at h
        subst h
        positivity

theorem proxInnerCaught_zero (fn : Str) : proxInnerCaught 0 0 fn = 0 := by
  unfold proxInnerCaught proxInner
  cases hp : floatOfDigitsDots fn with
  | none => rfl
  | some fv =>
    have hnn := floatOfDigitsDots_nonneg hp
    by_cases hz : fv = 0
    · subst hz
      norm_num
    · have hmax : max (0 : ℚ) fv = fv := max_eq_right hnn
      have hmin : min (0 : ℚ) fv = 0 := min_eq_left hnn
      simp [hmax, hmin, hz, zero_div]

theorem prox_zero_dv {fns : List Str} {s : ℚ} (hs : s = 0) :
    fns.foldl (fun s2 fn => proxInnerCaught 0 s2 fn) s = 0 := by
  induction fns generalizing s with
  | nil => exact hs
  | cons fn rest ih =>
    rw [List.foldl_cons]
    refine ih ?_
    subst hs
    exact proxInnerCaught_zero fn

theorem prox_fold_zero {dns fns : List Str} {s : ℚ} (hs : s = 0)
    (hz : ∀ dn ∈ dns, floatOfDigitsDots dn = none ∨ floatOfDigitsDots dn = some 0) :
    dns.foldl (fun s dn =>
      match floatOfDigitsDots dn with
      | none => s
      | some dv => List.foldl (fun s2 fn => proxInnerCaught dv s2 fn) s fns) s = 0 := by
  induction dns generalizing s with
  | nil => exact hs
  | cons dn rest ih =>
    have hrest : ∀ d ∈ rest, floatOfDigitsDots d = none ∨ floatOfDigitsDots d = some 0 :=
      fun d hd => hz d (by simp [hd])
    rw [List.foldl_cons]
    rcases hz dn (by simp) with hp | hp
    · simp only [hp]
      exact ih hs hrest
    · simp only [hp]
      exact ih (prox_zero_dv hs) hrest

theorem numeric_proximity_empty_fns (dns : List Str) :
    numeric_proximity_score dns [] = 0 := by
  unfold numeric_proximity_score
  have h : dns.foldl (fun s dn =>
      match floatOfDigitsDots dn with
      | none => s
      | some dv => List.foldl (fun s2 fn => proxInnerCaught dv s2 fn) s []) 0
      = 0 := by
    induction dns with
    | nil => rfl
    | cons dn rest ih =>
      rw [List.foldl_cons]
      cases hp : floatOfDigitsDots dn with
      | none => simpa using ih
      | some dv => simpa using ih
  rw [h]
  norm_num

/-- Claim C8: the numeric comparisons of the scorer cannot raise: the two
potentially-raising operations (the float parse and the min-over-max ratio
with a zero denominator) are modelled as Except errors inside proxInner, and
the source's except handlers (proxInnerCaught) turn every error into
skipping that comparison; when either side has no numeric tokens the whole
numeric score is 0, and when every description token parses to nothing or to
the value zero the proximity score is 0. -/
theorem claim_C8 (dns fns : List Str) :
    ((dns = [] ∨ fns = []) → numericScore dns fns = 0)
      ∧ ((∀ dn ∈ dns, floatOfDigitsDots dn = none ∨ floatOfDigitsDots dn = some 0) →
          numeric_proximity_score dns fns = 0)
      ∧ (∀ dv s2 : ℚ, ∀ fn : Str, proxInner dv s2 fn = Except.error () →
          proxInnerCaught dv s2 fn = s2) := by
  refine ⟨?_, ?_, ?_⟩
  · rintro (h | h)
    · subst h
      unfold numericScore countPairs numeric_proximity_score
      norm_num
    · subst h
      unfold numericScore countPairs
      rw [numeric_proximity_empty_fns]
      simp
  · intro hz
    unfold numeric_proximity_score
    rw [prox_fold_zero rfl hz]
    norm_num
  · intro dv s2 fn h
    unfold proxInnerCaught
    rw [h]

theorem claim_C8_witness : numericScore [] ["5".data] = 0 :=
  (claim_C8 [] ["5".data]).1 (Or.inl rfl)



def matchMaterialParams : List String := ["description", "materials"]

/-- Python call binding for the two-parameter signature
match_material(description, materials): binding succeeds only when at most
two positional arguments are given, every keyword names a declared parameter
that is not already bound positionally, and every parameter ends up bound.
An unknown keyword such as debug raises TypeError. -/
def matchMaterialCallOk (npos : Nat) (kwargs : List String) : Bool :=
  decide (npos ≤ matchMaterialParams.length)
    && kwargs.all (fun k => matchMaterialParams.contains k
          && !(matchMaterialParams.take npos).contains k)
    && (matchMaterialParams.drop npos).all (fun p => kwargs.contains p)

/-- One iteration of the /test-matching loop over the inputs: an already
raised TypeError propagates; otherwise the iteration calls
match_material(raw_input, materials_data, debug=True) — two positional
arguments plus the keyword debug — which fails to bind and raises
TypeError.  The ok branch cannot be reached and is modelled as recording
the input. -/
def testLoopStep (acc : Except String (List String)) (raw : String) :
    Except String (List String) :=
  match acc with
  | Except.error e => Except.error e
  | Except.ok rs =>
    if matchMaterialCallOk 2 ["debug"] then Except.ok (rs ++ [raw])
    else Except.error "TypeError"

/-- The /test-matching handler of src/app.py: 400 on an empty inputs list;
otherwise the loop raises on its first iteration and the handler's
try/except turns the TypeError into a 500 response with no results list.
The materials argument and the limit query parameter only trim the
pricebook (materials_data = all_materials sliced to limit) and cannot
affect the failure. -/
def test_matching (inputs : List String) (_materials : List Material)
    (_limit : Nat) : Nat × Option (List String) :=
  if inputs = [] then (400, none)
  else
    match inputs.foldl testLoopStep (Except.ok []) with
    | Except.ok rs => (200, some rs)
    | Except.error _ => (500, none)

theorem testLoop_error (l : List String) (e : String) :
    l.foldl testLoopStep (Except.error e) = Except.error e := by
  induction l with
  | nil => rfl
  | cons s rest ih =>
    rw [List.foldl_cons]
    exact ih

/-- Claim C10: every /test-matching request with a nonempty inputs list gets
a 500 response carrying no match results: the loop's first call passes the
keyword debug, which the two-parameter signature of match_material does not
accept, so a TypeError is raised and caught by the endpoint handler. -/
theorem claim_C10 (inputs : List String) (materials : List Material)
    (limit : Nat) (h : inputs ≠ []) :
    test_matching inputs materials limit = (500, none) := by
  unfold test_matching
  rw [if_neg h]
  match inputs, h with
  | i :: rest, _ =>
    rw [List.foldl_cons]
    have h1 : testLoopStep (Except.ok []) i = Except.error "TypeError" := rfl
    rw [h1, testLoop_error]

theorem claim_C10_witness :
    test_matching ["flex duct"] [] 500 = (500, none) :=
  claim_C10 ["flex duct"] [] 500 (by simp)



theorem foldl_ge_init {α : Type} {g : ℚ → α → ℚ} (hg : ∀ a x, a ≤ g a x)
    (l : List α) (a : ℚ) : a ≤ l.foldl g a := by
  induction l generalizing a with
  | nil => exact le_refl a
  | cons x xs ih => exact le_trans (hg a x) (ih (g a x))

theorem foldl_le_one {α : Type} {g : ℚ → α → ℚ}
    (hg : ∀ a x, a ≤ 1 → g a x ≤ 1) (l : List α) (a : ℚ) (ha : a ≤ 1) :
    l.foldl g a ≤ 1 := by
  induction l generalizing a with
  | nil => exact ha
  | cons x xs ih => exact ih (g a x) (hg a x ha)

theorem fieldScore_le_one (fzP fzT : Str → Str → ℚ) (dn : Str)
    (dnums : List Str) (dcats : List Str) (f : Str) :
    fieldScore fzP fzT dn dnums dcats f ≤ 1 := by
  unfold fieldScore
  exact min_le_right _ _

theorem bestFieldScore_nonneg (fzP fzT : Str → Str → ℚ) (dn : Str)
    (dnums : List Str) (dcats : List Str) (m : Material) :
    0 ≤ bestFieldScore fzP fzT dn dnums dcats m := by
  unfold bestFieldScore
  refine foldl_ge_init (fun a f => ?_) _ 0
  split
  · exact le_refl a
  · exact le_max_left _ _

theorem bestFieldScore_le_one (fzP fzT : Str → Str → ℚ) (dn : Str)
    (dnums : List Str) (dcats : List Str) (m : Material) :
    bestFieldScore fzP fzT dn dnums dcats m ≤ 1 := by
  unfold bestFieldScore
  refine foldl_le_one (fun a f ha => ?_) _ 0 (by norm_num)
  split
  · exact ha
  · exact max_le ha (fieldScore_le_one fzP fzT dn dnums dcats f)

def headSc : List ScoredMatch → ℚ
  | [] => 0
  | x :: _ => x.score

theorem insertDesc_ne_nil (x : ScoredMatch) (l : List ScoredMatch) :
    insertDesc x l ≠ [] := by
  cases l with
  | nil => simp [insertDesc]
  | cons y ys =>
    unfold insertDesc
    split <;> simp

theorem headSc_insertDesc (x : ScoredMatch) (l : List ScoredMatch)
    (hx : 0 ≤ x.score) : headSc (insertDesc x l) = max x.score (headSc l) := by
  cases l with
  | nil =>
    simp only [insertDesc, headSc]
    exact (max_eq_left hx).symm
  | cons y ys =>
    unfold insertDesc
    split
    · rename_i hlt
      simp only [headSc]
      exact (max_eq_left (le_of_lt hlt)).symm
    · rename_i hge
      simp only [headSc]
      exact (max_eq_right (not_lt.mp hge)).symm

theorem sortFold_ne_nil (l : List ScoredMatch) (acc : List ScoredMatch)
    (h : acc ≠ [] ∨ l ≠ []) :
    l.foldl (fun acc x => insertDesc x acc) acc ≠ [] := by
  induction l generalizing acc with
  | nil =>
    rcases h with h | h
    · exact h
    · exact absurd rfl h
  | cons x xs ih =>
    rw [List.foldl_cons]
    exact ih (insertDesc x acc) (Or.inl (insertDesc_ne_nil x acc))

theorem sortFold_headSc (l : List ScoredMatch) (acc : List ScoredMatch)
    (h : ∀ s ∈ l, 0 ≤ s.score) :
    headSc (l.foldl (fun acc x => insertDesc x acc) acc)
      = l.foldl (fun a x => max a x.score) (headSc acc) := by
  induction l generalizing acc with
  | nil => rfl
  | cons x xs ih =>
    rw [List.foldl_cons, List.foldl_cons]
    rw [ih (insertDesc x acc) (fun s hs => h s (by simp [hs]))]
    rw [headSc_insertDesc x acc (h x (by simp))]
    rw [max_comm]

theorem filterMax_eq (bfs : Material → ℚ) (mats : List Material) (a : ℚ)
    (ha : 0 ≤ a) :
    ((mats.filterMap (fun m =>
        if 0 < bfs m then some (⟨m.id, m.displayName, bfs m⟩ : ScoredMatch)
        else none)).foldl (fun acc x => max acc x.score) a)
      = mats.foldl (fun acc m => max acc (bfs m)) a := by
  induction mats generalizing a with
  | nil => rfl
  | cons m rest ih =>
    rw [List.filterMap_cons, List.foldl_cons]
    by_cases hb : 0 < bfs m
    · simp only [if_pos hb]
      rw [List.foldl_cons]
      exact ih (max a (bfs m)) (le_trans ha (le_max_left _ _))
    · simp only [if_neg hb]
      rw [ih a ha]
      have hz : max a (bfs m) = a := max_eq_left (le_trans (not_lt.mp hb) ha)
      rw [hz]

theorem mem_scored_pos (bfs : Material → ℚ) (mats : List Material)
    (s : ScoredMatch)
    (hs : s ∈ mats.filterMap (fun m =>
        if 0 < bfs m then some (⟨m.id, m.displayName, bfs m⟩ : ScoredMatch)
        else none)) : 0 ≤ s.score := by
  rw [List.mem_filterMap] at hs
  obtain ⟨m, _, hm⟩ := hs
  split at hm
  · rename_i hb
    simp only [Option.some.injEq] at hm
    subst hm
    exact le_of_lt hb
  · simp at hm

theorem headSc_sort_scored (fzP fzT : Str → Str → ℚ) (description : Str)
    (materials : List Material) :
    headSc (sortDesc (scoredOf fzP fzT description materials))
      = topScore fzP fzT description materials := by
  unfold sortDesc scoredOf topScore
  rw [sortFold_headSc _ [] (fun s hs => mem_scored_pos _ materials s hs)]
  exact filterMax_eq _ materials 0 (le_refl 0)

/-- Claim C1: for every description and every catalog (and any values of the
two external rapidfuzz ratios), the matcher returns a non-none item
identifier exactly when the top-ranked candidate score reaches the 0.55
confidence threshold, and below the threshold it returns the no-match triple
with itemId none and score 0. -/
theorem claim_C1 (fzP fzT : Str → Str → ℚ) (description : Str)
    (materials : List Material) :
    ((match_material fzP fzT description materials).1 ≠ none
        ↔ (0.55 : ℚ) ≤ topScore fzP fzT description materials)
      ∧ (topScore fzP fzT description materials < 0.55 →
          match_material fzP fzT description materials = (none, none, 0)) := by
  have htop := headSc_sort_scored fzP fzT description materials
  unfold match_material
  cases hsort : sortDesc (scoredOf fzP fzT description materials) with
  | nil =>
    rw [hsort] at htop
    have h0 : topScore fzP fzT description materials = 0 := htop.symm
    simp only [hsort, List.head?_nil, h0]
    constructor
    · constructor
      · intro hne
        exact absurd rfl hne
      · intro hle
        norm_num at hle
    · intro _
      trivial
  | cons best rest =>
    rw [hsort] at htop
    have hbt : best.score = topScore fzP fzT description materials := htop
    simp only [hsort, List.head?_cons]
    by_cases hth : (0.55 : ℚ) ≤ best.score
    · rw [if_pos hth]
      constructor
      · constructor
        · intro _
          rw [← hbt]
          exact hth
        · intro _
          simp
      · intro hlt
        rw [← hbt] at hlt
        exact absurd hth (not_le.mpr hlt)
    · rw [if_neg hth]
      constructor
      · constructor
        · intro hne
          exact absurd rfl hne
        · intro hle
          rw [← hbt] at hle
          exact absurd hle hth
      · intro _
        rfl



theorem topScore_nonneg (fzP fzT : Str → Str → ℚ) (description : Str)
    (materials : List Material) : 0 ≤ topScore fzP fzT description materials := by
  unfold topScore
  exact foldl_ge_init (fun a m => le_max_left _ _) _ 0

theorem topScore_le_one (fzP fzT : Str → Str → ℚ) (description : Str)
    (materials : List Material) : topScore fzP fzT description materials ≤ 1 := by
  unfold topScore
  refine foldl_le_one (fun a m ha => ?_) _ 0 (by norm_num)
  exact max_le ha (bestFieldScore_le_one fzP fzT _ _ _ m)

/-- Claim C2 as amended: only an upper clamp is applied to the per-field
score, which can therefore be negative before the maximum over fields is
taken; the per-item score and the returned score do lie in the interval
0 to 1, because the maximum over fields starts from 0 and each clamped
field score is at most 1. -/
theorem claim_C2_amended (fzP fzT : Str → Str → ℚ) (description : Str)
    (materials : List Material) (m : Material) :
    (0 ≤ bestFieldScore fzP fzT (descNormOf description)
        (extract_numbers_with_units (descNormOf description))
        (descCatsOf description) m
      ∧ bestFieldScore fzP fzT (descNormOf description)
          (extract_numbers_with_units (descNormOf description))
          (descCatsOf description) m ≤ 1)
      ∧ (0 ≤ (match_material fzP fzT description materials).2.2
        ∧ (match_material fzP fzT description materials).2.2 ≤ 1) := by
  refine ⟨⟨bestFieldScore_nonneg fzP fzT _ _ _ m,
          bestFieldScore_le_one fzP fzT _ _ _ m⟩, ?_⟩
  have htop := headSc_sort_scored fzP fzT description materials
  unfold match_material
  cases hsort : sortDesc (scoredOf fzP fzT description materials) with
  | nil =>
    simp only [hsort, List.head?_nil]
    norm_num
  | cons best rest =>
    rw [hsort] at htop
    have hbt : best.score = topScore fzP fzT description materials := htop
    simp only [hsort, List.head?_cons]
    by_cases hth : (0.55 : ℚ) ≤ best.score
    · rw [if_pos hth]
      constructor
      · simp only [hbt]
        exact topScore_nonneg fzP fzT description materials
      · simp only [hbt]
        exact topScore_le_one fzP fzT description materials
    · rw [if_neg hth]
      norm_num

/-- A concrete instantiation of the two rapidfuzz ratio parameters: both
fuzz.partial_ratio and fuzz.token_sort_ratio return 0 when the two compared
strings share no character at all (their longest common subsequence is
empty, and so is the one of every alignment window). -/
def zeroRatio : Str → Str → ℚ := fun _ _ => 0

theorem numericScore_nil : numericScore [] [] = 0 := by
  unfold numericScore countPairs numeric_proximity_score
  norm_num

/-- Claim C2, counterexample: the per-field weighted sum is not clamped to
the claimed interval: for the description "foil" (category tape, no shared
keyword and the electrical word "breaker" in the field) the per-field score
is 0.25 * (-0.3) = -3/40 < 0.  Both rapidfuzz ratios are 0 here because
"foil" and "breaker" share no character, so the constant-zero ratio
functions agree with the library on every compared pair. -/
theorem claim_C2_counterexample :
    fieldScore zeroRatio zeroRatio (descNormOf "foil".data)
      (extract_numbers_with_units (descNormOf "foil".data))
      (descCatsOf "foil".data) "breaker".data < 0 := by
  have hnums : extract_numbers_with_units (descNormOf "foil".data) = [] := rfl
  have hcats : descCatsOf "foil".data = ["tape".data] := rfl
  have htoks : pySplitWS (fieldNorm "breaker".data) = ["breaker".data] := rfl
  have hfnums : extract_numbers_with_units (fieldNorm "breaker".data) = [] := rfl
  have hsem : semanticScore ["tape".data] ["breaker".data] = 0 - 0.3 := by
    unfold semanticScore categories
    rw [List.foldl_cons, List.foldl_cons, List.foldl_cons, List.foldl_cons,
        List.foldl_nil]
    rw [if_neg (by decide), if_pos (by decide), if_neg (by decide),
        if_neg (by decide), if_neg (by decide), if_neg (by decide),
        if_neg (by decide), if_neg (by decide)]
  simp only [fieldScore]
  rw [htoks, hcats, hfnums, hnums, hsem, numericScore_nil]
  simp only [zeroRatio]
  rw [max_self]
  norm_num

theorem claim_C1_witness :
    match_material zeroRatio zeroRatio "misc supplies".data [] = (none, none, 0) :=
  (claim_C1 zeroRatio zeroRatio "misc supplies".data []).2
    (by rw [show topScore zeroRatio zeroRatio "misc supplies".data [] = 0 from rfl]; norm_num)



theorem pyLower_id {y : Str} (h : ∀ c ∈ y, Char.toLower c = c) :
    pyLower y = y := by
  unfold pyLower
  induction y with
  | nil => rfl
  | cons c cs ih =>
    rw [List.map_cons, h c (by simp), ih (fun d hd => h d (by simp [hd]))]

theorem replaceFuel_id {old new : Str} :
    ∀ (fuel : Nat) (s : Str), ¬ (old <:+: s) → replaceFuel old new fuel s = s := by
  intro fuel
  induction fuel with
  | zero => intro s _; rfl
  | succ fuel ih =>
    intro s hinf
    cases s with
    | nil => rfl
    | cons c rest =>
      have hpre : old.isPrefixOf (c :: rest) = false := by
        by_contra hx
        rw [Bool.not_eq_false] at hx
        exact hinf (List.isPrefixOf_iff_prefix.mp hx).isInfix
      simp only [replaceFuel, hpre, Bool.false_and, Bool.false_eq_true,
        if_false]
      rw [ih rest (fun h2 => hinf (List.infix_cons h2))]

theorem pyReplace_id {old new s : Str} (h : ¬ (old <:+: s)) :
    pyReplace s old new = s :=
  replaceFuel_id s.length s h

theorem notInfixOfNotMem {c0 : Char} {y : Str} (h : c0 ∉ y) :
    ¬ ([c0] <:+: y) := by
  intro hinf
  exact h (hinf.sublist.subset (by simp))

/-- Every string in canonical shape is a fixed point of the normalizer: no
uppercase ASCII letter, no curly quote or long dash, none of the five
rewritable unit spellings as a substring, no filler word standing as a whole
token, whitespace already collapsed and trimmed. -/
theorem normalize_fixed {y : Str}
    (hlow : ∀ c ∈ y, Char.toLower c = c)
    (hq1 : '”' ∉ y) (hq2 : '“' ∉ y) (hd1 : '–' ∉ y) (hd2 : '—' ∉ y)
    (hs1 : ¬ ("inch".data <:+: y)) (hs2 : ¬ ("in.".data <:+: y))
    (hs3 : ¬ ("\"".data <:+: y)) (hs4 : ¬ ("feet".data <:+: y))
    (hs5 : ¬ ("ft.".data <:+: y))
    (hfill : removeFillers y = y) (hcoll : collapseWS y = y)
    (hstrip : pyStrip y = y) :
    normalize_material_text y = y := by
  simp only [normalize_material_text]
  rw [pyLower_id hlow]
  rw [pyReplace_id (notInfixOfNotMem hq1)]
  rw [pyReplace_id (notInfixOfNotMem hq2)]
  rw [pyReplace_id (notInfixOfNotMem hd1)]
  rw [pyReplace_id (notInfixOfNotMem hd2)]
  rw [pyReplace_id hs1]
  rw [pyReplace_id hs2]
  rw [pyReplace_id hs3]
  rw [pyReplace_id hs4]
  rw [pyReplace_id hs5]
  rw [hfill, hcoll, hstrip]

/-- Claim C3 as amended: the normalizer is idempotent on every input whose
normalized form is in canonical shape — already lower-case, free of curly
punctuation, containing none of the rewritable unit spellings "inch",
"in.", the double quote, "feet", "ft." as substrings, with no filler word
as a whole token and whitespace collapsed and trimmed.  Unconditional
idempotence fails (see the counterexample). -/
theorem claim_C3_amended (s : Str)
    (hlow : ∀ c ∈ normalize_material_text s, Char.toLower c = c)
    (hq1 : '”' ∉ normalize_material_text s)
    (hq2 : '“' ∉ normalize_material_text s)
    (hd1 : '–' ∉ normalize_material_text s)
    (hd2 : '—' ∉ normalize_material_text s)
    (hs1 : ¬ ("inch".data <:+: normalize_material_text s))
    (hs2 : ¬ ("in.".data <:+: normalize_material_text s))
    (hs3 : ¬ ("\"".data <:+: normalize_material_text s))
    (hs4 : ¬ ("feet".data <:+: normalize_material_text s))
    (hs5 : ¬ ("ft.".data <:+: normalize_material_text s))
    (hfill : removeFillers (normalize_material_text s) = normalize_material_text s)
    (hcoll : collapseWS (normalize_material_text s) = normalize_material_text s)
    (hstrip : pyStrip (normalize_material_text s) = normalize_material_text s) :
    normalize_material_text (normalize_material_text s)
      = normalize_material_text s :=
  normalize_fixed hlow hq1 hq2 hd1 hd2 hs1 hs2 hs3 hs4 hs5 hfill hcoll hstrip

theorem claim_C3_amended_witness :
    normalize_material_text (normalize_material_text "6\" Flex Duct".data)
      = normalize_material_text "6\" Flex Duct".data :=
  claim_C3_amended "6\" Flex Duct".data (by decide) (by decide) (by decide)
    (by decide) (by decide) (by decide) (by decide) (by decide) (by decide)
    (by decide) (by decide) (by decide) (by decide)

end STApp
